import Mathlib

/-!
Verification development for the trajectory-visualization scripts of this
repository.

Two near-duplicate scripts are embedded:

* `src/src/sim.py`  — the parallel, file-based variant: frames are rendered by
  `process_frame` through a `multiprocessing.Pool`, written as
  `temp/frame_XXXX.png`, assembled with `ImageSequenceClip(temp_dir, fps=10)`
  (which reads the scratch directory and sorts the file paths
  lexicographically), and the scratch directory is afterwards removed file by
  file (`os.listdir` / `os.remove` / `os.rmdir`).
* `src/video/sim.py` — the sequential, in-memory variant: one figure is reused
  in a loop, each iteration captures an RGB pixel buffer of the canvas, and the
  buffer list is assembled with `ImageSequenceClip(frames, fps=10)`.

Machine arithmetic that matters here is integer only (frame indices, pixel
dimensions); atom coordinates are carried as opaque integer triples, since no
claim depends on coordinate arithmetic.  External collaborators (matplotlib,
moviepy, the OS file interface, numpy's `np.array` conversion) are modelled by
their documented behaviour at exactly the calls the scripts make.
-/

namespace Sim

/-! ### Decimal rendering (Python `str` / `f'{i:04d}'`) -/

/-- Rendering of a single decimal digit to its character, as in Python's
integer formatting. -/
def digitChar : Nat → Char
  | 0 => '0' | 1 => '1' | 2 => '2' | 3 => '3' | 4 => '4'
  | 5 => '5' | 6 => '6' | 7 => '7' | 8 => '8' | 9 => '9'
  | _ => '*'

/-- Fueled most-significant-first decimal digit expansion. -/
def natDigitsAux : Nat → Nat → List Nat
  | 0, _ => []
  | fuel + 1, n => if n < 10 then [n] else natDigitsAux fuel (n / 10) ++ [n % 10]

/-- Decimal digits of `n`, most significant first; `natDigits 0 = [0]`. -/
def natDigits (n : Nat) : List Nat := natDigitsAux (n + 1) n

/-- Python `str(n)` for a nonnegative integer, as a character list. -/
def decChars (n : Nat) : List Char := (natDigits n).map digitChar

/-- The digit list of `f'{i:04d}'`: the decimal digits, left-padded with
zeros to a minimum width of four. -/
def pad4digits (n : Nat) : List Nat :=
  List.replicate (4 - (natDigits n).length) 0 ++ natDigits n

/-- `f'frame_{i:04d}.png'` (src/src/sim.py line 15). -/
def frame_name (i : Nat) : List Char :=
  "frame_".data ++ (pad4digits i).map digitChar ++ ".png".data

/-- `os.path.join` for a directory and file name. -/
def path_join (d n : List Char) : List Char := d ++ '/' :: n

/-- The full scratch path of the frame for snapshot `i`:
`temp/frame_XXXX.png`. -/
def pathOf (i : Nat) : List Char := path_join "temp".data (frame_name i)

/-! ### Lexicographic string order (Python `sorted`, moviepy folder input)

moviepy's `ImageSequenceClip`, given a folder, uses
`sorted(os.path.join(sequence, f) for f in os.listdir(sequence))`; Python
sorts strings lexicographically by code point. -/

/-- Strict lexicographic order on character lists (Python string `<`). -/
def lexLt : List Char → List Char → Bool
  | [], [] => false
  | [], _ :: _ => true
  | _ :: _, [] => false
  | a :: as, b :: bs => if a < b then true else if a = b then lexLt as bs else false

/-- Non-strict lexicographic order on character lists (Python string `<=`). -/
def lexLe (a b : List Char) : Bool := !lexLt b a

/-- The ordering relation used to model Python's `sorted` on paths. -/
def LeStr (a b : List Char) : Prop := lexLe a b = true

instance : DecidableRel LeStr := fun a b => inferInstanceAs (Decidable (lexLe a b = true))

/-! ### Data model -/

/-- An atom position: an (x, y, z) coordinate triple.  Coordinates are opaque
data here; no claim depends on coordinate arithmetic. -/
abbrev Pos := Int × Int × Int

/-- One snapshot: the positions of all atoms at one recorded instant. -/
abbrev Snapshot := List Pos

/-- The parsed contents of `simulation_data.json` (src/src/sim.py lines
36-44). -/
structure SimData where
  box_length : Int
  num_atoms : Nat
  timestep : Int
  total_steps : Nat
  snapshot_interval : Nat
  trajectory : List Snapshot
deriving DecidableEq

/-- The mutable state of a matplotlib 3D axes object: limits, accumulated
scatter calls, legend flag, axis labels and the axes title. -/
structure Axes where
  xlim : Int × Int
  ylim : Int × Int
  zlim : Int × Int
  scatter : List Snapshot
  legend : Bool
  xlabel : List Char
  ylabel : List Char
  zlabel : List Char
  title : List Char
deriving DecidableEq

/-- A freshly created (or cleared) axes object. -/
def Axes.cleared : Axes :=
  { xlim := (0, 1), ylim := (0, 1), zlim := (0, 1), scatter := [],
    legend := false, xlabel := [], ylabel := [], zlabel := [], title := [] }

/-- A matplotlib figure: a canvas of fixed pixel dimensions holding one axes
object.  `plt.figure()` uses the default 6.4 x 4.8 inch canvas at 100 dpi. -/
structure Figure where
  width : Nat
  height : Nat
  axes : Axes
deriving DecidableEq

/-- `plt.figure()` followed by `fig.add_subplot(111, projection='3d')`. -/
def newFigure : Figure := { width := 640, height := 480, axes := Axes.cleared }

/-- A rasterized frame: the pixel buffer is determined by the canvas
dimensions and the drawing state of the figure's axes at capture time. -/
structure Png where
  width : Nat
  height : Nat
  content : Axes
deriving DecidableEq

/-- Rasterization of a figure (`plt.savefig` / `fig.canvas.tostring_rgb`). -/
def rasterize (f : Figure) : Png := ⟨f.width, f.height, f.axes⟩

/-! ### Axes/figure operations used by both scripts -/

def ax_clear (_a : Axes) : Axes := Axes.cleared

def ax_set_xlim (a : Axes) (lo hi : Int) : Axes := { a with xlim := (lo, hi) }

def ax_set_ylim (a : Axes) (lo hi : Int) : Axes := { a with ylim := (lo, hi) }

def ax_set_zlim (a : Axes) (lo hi : Int) : Axes := { a with zlim := (lo, hi) }

def ax_scatter (a : Axes) (ps : Snapshot) : Axes := { a with scatter := a.scatter ++ [ps] }

def ax_legend (a : Axes) : Axes := { a with legend := true }

def ax_set_xlabel (a : Axes) (s : List Char) : Axes := { a with xlabel := s }

def ax_set_ylabel (a : Axes) (s : List Char) : Axes := { a with ylabel := s }

def ax_set_zlabel (a : Axes) (s : List Char) : Axes := { a with zlabel := s }

/-- `plt.title` sets the title of the current axes. -/
def plt_title (a : Axes) (s : List Char) : Axes := { a with title := s }

/-- `plt.tight_layout()` adjusts subplot parameters inside the canvas; it does
not change the canvas pixel dimensions or the drawn data. -/
def plt_tight_layout (f : Figure) : Figure := f

/-! ### Filesystem model

Files are keyed by (directory, file name) and hold rasterized images; the
scripts create no subdirectories inside the scratch directory, so directories
are modelled as a flat existence list. -/

/-- A directory entry: ((directory, name), image contents). -/
abbrev Entry := (List Char × List Char) × Png

structure FS where
  dirs : List (List Char)
  files : List Entry
deriving DecidableEq

def emptyFS : FS := ⟨[], []⟩

/-- `os.makedirs(d, exist_ok=True)`. -/
def os_makedirs (fs : FS) (d : List Char) : FS :=
  if d ∈ fs.dirs then fs else { fs with dirs := d :: fs.dirs }

/-- `os.listdir(d)` for an existing directory: the names of the files in `d`
(the scripts put no subdirectories in the scratch directory). -/
def listdirNames (fs : FS) (d : List Char) : List (List Char) :=
  (fs.files.filter (fun e => decide (e.1.1 = d))).map (fun e => e.1.2)

/-- Removal of the first entry with the given key. -/
def removeEntry : List Entry → List Char × List Char → List Entry
  | [], _ => []
  | e :: rest, k => if e.1 = k then rest else e :: removeEntry rest k

/-- Errors raised by the OS interface. -/
inductive OSErr
  | fileNotFound
  | dirNotEmpty
deriving DecidableEq

/-- `os.remove(path)`: deletes the file or raises `FileNotFoundError`. -/
def os_remove (fs : FS) (k : List Char × List Char) : Except OSErr FS :=
  if ∃ e ∈ fs.files, e.1 = k then .ok { fs with files := removeEntry fs.files k }
  else .error .fileNotFound

/-- `os.rmdir(d)`: removes an existing empty directory, raises otherwise. -/
def os_rmdir (fs : FS) (d : List Char) : Except OSErr FS :=
  if d ∈ fs.dirs then
    if ∃ e ∈ fs.files, e.1.1 = d then .error .dirNotEmpty
    else .ok { fs with dirs := fs.dirs.erase d }
  else .error .fileNotFound

/-- `plt.savefig(path)`: writes the rasterized figure, replacing any existing
file at that path. -/
def writeFile (fs : FS) (k : List Char × List Char) (p : Png) : FS :=
  { fs with files := fs.files.filter (fun e => decide (¬ e.1 = k)) ++ [(k, p)] }

/-! ### Errors of the pipeline

The spec's error taxonomy (§7).  The embedded scripts can only produce some of
these; `shapeMismatch` in particular is part of the taxonomy but is never
raised by the code. -/

inductive PipelineError
  | valueError      -- numpy: ragged nested list passed to np.array
  | shapeMismatch   -- spec taxonomy: snapshot atom count differs from num_atoms
  | renderError     -- a savefig call failed (e.g. resource exhaustion)
  | encodingError   -- moviepy: frames of inconsistent dimensions
  | indexError      -- moviepy: empty image sequence
  | osError         -- cleanup-stage OS failure
deriving DecidableEq

/-- The rendering environment: whether a given `savefig` call fails for
external reasons (disk full, resource exhaustion, ...). -/
structure Env where
  savefigFails : List Char → Bool

/-! ### The parallel script, src/src/sim.py -/

/-- The module-level globals captured by `process_frame`: the scratch
directory name, the box length `L`, `SNAPSHOT_INTERVAL`, and the identity
(store index) of the module-level figure created at line 51. -/
structure Globals where
  temp_dir : List Char
  L : Int
  SNAPSHOT_INTERVAL : Nat
  figIdx : Nat

/-- The globals as the script sets them up: `temp_dir = 'temp'` (line 47),
`L = box_length` (line 37), `SNAPSHOT_INTERVAL` (line 41), and the single
figure `fig = plt.figure()` (line 51), the first and only figure in the
store. -/
def globalsOf (d : SimData) : Globals :=
  ⟨"temp".data, d.box_length, d.snapshot_interval, 0⟩

/-- Lines 16-23 of `process_frame`: clear the (shared) axes, set the limits,
scatter the snapshot, draw the legend, set the title, tight_layout. -/
def renderFig (g : Globals) (fig : Figure) (i : Nat) (positions : Snapshot) : Figure :=
  let a0 := ax_clear fig.axes
  let a1 := ax_set_xlim a0 0 g.L
  let a2 := ax_set_ylim a1 0 g.L
  let a3 := ax_set_zlim a2 0 g.L
  let a4 := ax_scatter a3 positions
  let a5 := ax_legend a4
  let a6 := plt_title a5 ("Timestep ".data ++ decChars (i * g.SNAPSHOT_INTERVAL))
  plt_tight_layout { fig with axes := a6 }

/-- The figure-store index `process_frame` dereferences: line 16 operates on
the module-global `ax` of the module-global `fig`, for every invocation. -/
def process_frame_ctx (g : Globals) (_args : Nat × Snapshot) : Nat := g.figIdx

/-- `process_frame(args)` (lines 13-25): renders one snapshot on the shared
module-level figure and saves it as `temp/frame_XXXX.png`, returning the
frame path.  The figure store and the filesystem are the threaded state. -/
def process_frame (g : Globals) (env : Env) (figs : List Figure) (fs : FS)
    (args : Nat × Snapshot) : Except PipelineError (List Figure × FS × List Char) :=
  let (i, positions) := args
  let frame_path := path_join g.temp_dir (frame_name i)
  let fig := figs.getD (process_frame_ctx g args) newFigure
  let fig' := renderFig g fig i positions
  if env.savefigFails frame_path then .error .renderError
  else
    .ok (figs.set g.figIdx fig', writeFile fs (g.temp_dir, frame_name i) (rasterize fig'),
      frame_path)

/-- The worker pool: the submitted tasks are executed in the (arbitrary)
completion order `ord`; each index selects its argument tuple from `args`.
Execution stops at the first failure, which `pool.imap` re-raises in the
parent (line 59).  Indices outside `args` denote no task. -/
def workerFold (g : Globals) (env : Env) :
    List Figure × FS → List Nat → List (Nat × Snapshot) →
    (List Figure × FS) × Option PipelineError
  | st, [], _ => (st, none)
  | st, k :: rest, args =>
    match args.get? k with
    | none => workerFold g env st rest args
    | some a =>
      match process_frame g env st.1 st.2 a with
      | .error e => (st, some e)
      | .ok (figs', fs', _) => workerFold g env (figs', fs') rest args

/-- Line 55: `args = [(i, trajectory[i]) for i in range(len(trajectory))]`. -/
def argsOf (traj : List Snapshot) : List (Nat × Snapshot) :=
  (List.range traj.length).map (fun i => (i, traj.getD i []))

/-- Line 59: `pool.imap` yields the return value of `process_frame` for each
argument tuple in input order; `process_frame` returns the frame path it
computed from its index (line 15/25). -/
def collectPaths (g : Globals) (args : List (Nat × Snapshot)) : List (List Char) :=
  args.map (fun a => path_join g.temp_dir (frame_name a.1))

/-- `np.array(simulation_data['trajectory'])` (line 44): numpy converts a
uniformly-shaped nested list and raises `ValueError` on a ragged one. -/
def uniform (traj : List Snapshot) : Bool :=
  traj.all (fun s => decide (s.length = (traj.headD []).length))

def np_array (traj : List Snapshot) : Except PipelineError (List Snapshot) :=
  if uniform traj then .ok traj else .error .valueError

/-- Ordering of directory entries by their joined path, as moviepy sorts
`os.path.join(sequence, f) for f in os.listdir(sequence)`. -/
def entryLe (a b : Entry) : Prop := LeStr (path_join a.1.1 a.1.2) (path_join b.1.1 b.1.2)

instance : DecidableRel entryLe :=
  fun a b => inferInstanceAs (Decidable (LeStr (path_join a.1.1 a.1.2) (path_join b.1.1 b.1.2)))

/-- Dimension check performed by moviepy before encoding: all frames must
have the same size. -/
def allSameDims : List Png → Bool
  | [] => true
  | p :: rest => rest.all (fun q => decide (q.width = p.width ∧ q.height = p.height))

/-- `ImageSequenceClip(temp_dir, fps=10)` followed by `write_videofile`
(lines 64-65): collects the files of the scratch directory sorted by path,
fails with `IndexError` if the directory holds no image and with a size
error (`encodingError`) if the images disagree in dimensions; otherwise the
video is the path-sorted frame sequence. -/
def image_sequence_clip_dir (fs : FS) (d : List Char) :
    Except PipelineError (List (List Char)) :=
  let entries := List.insertionSort entryLe
    (fs.files.filter (fun e => decide (e.1.1 = d)))
  match entries with
  | [] => .error .indexError
  | _ :: _ =>
    if allSameDims (entries.map (fun e => e.2)) then
      .ok (entries.map (fun e => path_join e.1.1 e.1.2))
    else .error .encodingError

/-- Lines 69-74: `for file in os.listdir(temp_dir): os.remove(...)` followed
by `os.rmdir(temp_dir)`.  `os.listdir` itself raises `FileNotFoundError`
when the scratch directory does not exist. -/
def cleanup (fs : FS) : Except OSErr FS :=
  if "temp".data ∈ fs.dirs then do
    let fs1 ← (listdirNames fs "temp".data).foldlM
      (fun s n => os_remove s ("temp".data, n)) fs
    os_rmdir fs1 "temp".data
  else .error .fileNotFound

/-- The observable outcome of a run of the parallel script: the final
filesystem, the assembled video (as its ordered frame-artifact sequence),
the collected `frame_paths` list, and the error that aborted the run, if
any. -/
structure RunOutcome where
  fs : FS
  video : Option (List (List Char))
  framePaths : Option (List (List Char))
  err : Option PipelineError
deriving DecidableEq

/-- End-to-end run of src/src/sim.py on parsed data `d`, with worker
completion order `ord`, starting from filesystem `fs0`.  Stages: the
`np.array` conversion (line 44), `os.makedirs('temp', exist_ok=True)`
(line 48), the parallel render (lines 58-59), directory-based video assembly
(lines 64-65), and cleanup (lines 70-74). -/
def runParallel (d : SimData) (env : Env) (fs0 : FS) (ord : List Nat) : RunOutcome :=
  match np_array d.trajectory with
  | .error e => ⟨fs0, none, none, some e⟩
  | .ok traj =>
    match workerFold (globalsOf d) env
        ([newFigure], os_makedirs fs0 (globalsOf d).temp_dir) ord (argsOf traj) with
    | (st, some e) => ⟨st.2, none, none, some e⟩
    | (st, none) =>
      match image_sequence_clip_dir st.2 (globalsOf d).temp_dir with
      | .error e => ⟨st.2, none, some (collectPaths (globalsOf d) (argsOf traj)), some e⟩
      | .ok video =>
        match cleanup st.2 with
        | .error _ => ⟨st.2, some video, some (collectPaths (globalsOf d) (argsOf traj)),
            some .osError⟩
        | .ok fs3 => ⟨fs3, some video, some (collectPaths (globalsOf d) (argsOf traj)), none⟩

/-! ### The sequential script, src/video/sim.py -/

/-- Lines 99-107: the figure and axes set up before the loop. -/
def seqInitFig (d : SimData) : Figure :=
  let a0 := Axes.cleared
  let a1 := ax_set_xlim a0 0 d.box_length
  let a2 := ax_set_ylim a1 0 d.box_length
  let a3 := ax_set_zlim a2 0 d.box_length
  let a4 := ax_set_xlabel a3 "X (angstrom)".data
  let a5 := ax_set_ylabel a4 "Y (angstrom)".data
  let a6 := ax_set_zlabel a5 "Z (angstrom)".data
  let a7 := plt_title a6 "Argon System Simulation".data
  { newFigure with axes := a7 }

/-- One iteration of the render loop (lines 111-126): clear, set limits and
labels, scatter, legend, title, tight_layout, draw, and append the captured
RGB buffer of the canvas. -/
def seqStep (d : SimData) (st : Figure × List Png) (ip : Nat × Snapshot) :
    Figure × List Png :=
  let (i, positions) := ip
  let a0 := ax_clear st.1.axes
  let a1 := ax_set_xlim a0 0 d.box_length
  let a2 := ax_set_ylim a1 0 d.box_length
  let a3 := ax_set_zlim a2 0 d.box_length
  let a4 := ax_set_xlabel a3 "X (angstrom)".data
  let a5 := ax_set_ylabel a4 "Y (angstrom)".data
  let a6 := ax_set_zlabel a5 "Z (angstrom)".data
  let a7 := ax_scatter a6 positions
  let a8 := ax_legend a7
  let a9 := plt_title a8 ("Timestep ".data ++ decChars (i * d.snapshot_interval))
  let fig' := plt_tight_layout { st.1 with axes := a9 }
  (fig', st.2 ++ [rasterize fig'])

/-- The frame-buffer list built by the loop over `enumerate(trajectory)`. -/
def seqFrames (d : SimData) : List Png :=
  (d.trajectory.enum.foldl (seqStep d) (seqInitFig d, [])).2

/-- `ImageSequenceClip(frames, fps=10)` on an in-memory buffer list:
`IndexError` on an empty list, a size error if the buffers disagree in
dimensions, otherwise the video is the buffer sequence in list order. -/
def assembleBuffers (frames : List Png) : Except PipelineError (List Png) :=
  match frames with
  | [] => .error .indexError
  | _ :: _ =>
    if allSameDims frames then .ok frames else .error .encodingError

/-- End-to-end run of src/video/sim.py: load conversion, then the sequential
render loop, then buffer-list assembly. -/
def runSequential (d : SimData) : Except PipelineError (List Png) :=
  match np_array d.trajectory with
  | .error e => .error e
  | .ok _ => assembleBuffers (seqFrames d)

/-! ### Derived notions used to state the properties -/

instance {ε α : Type _} [DecidableEq ε] [DecidableEq α] : DecidableEq (Except ε α) := fun a b =>
  match a, b with
  | .ok x, .ok y => if h : x = y then .isTrue (by rw [h]) else .isFalse (by simp [h])
  | .error x, .error y => if h : x = y then .isTrue (by rw [h]) else .isFalse (by simp [h])
  | .ok _, .error _ => .isFalse (by simp)
  | .error _, .ok _ => .isFalse (by simp)

/-- The image `process_frame` produces for snapshot `i`: since the render
begins with `ax.clear()`, it is independent of the prior axes state, and the
canvas dimensions are those of the (default-sized) module figure. -/
def pngParallel (g : Globals) (i : Nat) (ps : Snapshot) : Png :=
  rasterize (renderFig g newFigure i ps)

/-- The scratch-directory entry the parallel run produces for snapshot `k`. -/
def entryOf (g : Globals) (traj : List Snapshot) (k : Nat) : Entry :=
  ((g.temp_dir, frame_name k), pngParallel g k (traj.getD k []))

/-- All figures in the store have the default canvas dimensions. -/
def figsDimOK (figs : List Figure) : Prop :=
  ∀ f ∈ figs, f.width = 640 ∧ f.height = 480

/-- Value of a most-significant-first digit list (left inverse of
`natDigits`). -/
def undigits (l : List Nat) : Nat := l.foldl (fun a d => 10 * a + d) 0

/-! ## Theorems -/

/-! ### The lexicographic order -/

theorem lexLt_irrefl : ∀ a : List Char, lexLt a a = false := by
  intro a
  induction a with
  | nil => rfl
  | cons x xs ih => simp [lexLt, ih]

theorem lexLt_asymm : ∀ a b : List Char, lexLt a b = true → lexLt b a = false := by
  intro a
  induction a with
  | nil =>
    intro b h
    cases b with
    | nil => simp [lexLt] at h
    | cons y ys => rfl
  | cons x xs ih =>
    intro b h
    cases b with
    | nil => simp [lexLt] at h
    | cons y ys =>
      simp only [lexLt] at h ⊢
      by_cases hxy : x < y
      · rw [if_neg (lt_asymm hxy), if_neg (ne_of_gt hxy)]
      · rw [if_neg hxy] at h
        by_cases hxe : x = y
        · subst hxe
          rw [if_pos rfl] at h
          rw [if_neg (lt_irrefl x), if_pos rfl]
          exact ih ys h
        · rw [if_neg hxe] at h
          exact absurd h (by simp)

theorem lexLt_trans : ∀ a b c : List Char,
    lexLt a b = true → lexLt b c = true → lexLt a c = true := by
  intro a
  induction a with
  | nil =>
    intro b c h1 h2
    cases b with
    | nil => simp [lexLt] at h1
    | cons y ys =>
      cases c with
      | nil => simp [lexLt] at h2
      | cons z zs => rfl
  | cons x xs ih =>
    intro b c h1 h2
    cases b with
    | nil => simp [lexLt] at h1
    | cons y ys =>
      cases c with
      | nil => simp [lexLt] at h2
      | cons z zs =>
        simp only [lexLt] at h1 h2 ⊢
        by_cases hxy : x < y
        · by_cases hyz : y < z
          · rw [if_pos (lt_trans hxy hyz)]
          · rw [if_neg hyz] at h2
            by_cases hye : y = z
            · subst hye; rw [if_pos hxy]
            · rw [if_neg hye] at h2; exact absurd h2 (by simp)
        · rw [if_neg hxy] at h1
          by_cases hxe : x = y
          · subst hxe
            rw [if_pos rfl] at h1
            by_cases hyz : x < z
            · rw [if_pos hyz]
            · rw [if_neg hyz] at h2 ⊢
              by_cases hye : x = z
              · subst hye
                rw [if_pos rfl] at h2 ⊢
                exact ih ys zs h1 h2
              · rw [if_neg hye] at h2; exact absurd h2 (by simp)
          · rw [if_neg hxe] at h1; exact absurd h1 (by simp)

theorem lexLt_eq : ∀ a b : List Char,
    lexLt a b = false → lexLt b a = false → a = b := by
  intro a
  induction a with
  | nil =>
    intro b h1 _
    cases b with
    | nil => rfl
    | cons y ys => simp [lexLt] at h1
  | cons x xs ih =>
    intro b h1 h2
    cases b with
    | nil => simp [lexLt] at h2
    | cons y ys =>
      simp only [lexLt] at h1 h2
      by_cases hxy : x < y
      · rw [if_pos hxy] at h1; exact absurd h1 (by simp)
      · rw [if_neg hxy] at h1
        by_cases hyx : y < x
        · rw [if_pos hyx] at h2; exact absurd h2 (by simp)
        · rw [if_neg hyx] at h2
          have hxe : x = y := le_antisymm (not_lt.mp hyx) (not_lt.mp hxy)
          subst hxe
          rw [if_pos rfl] at h1 h2
          rw [ih ys h1 h2]

theorem LeStr_iff {a b : List Char} : LeStr a b ↔ lexLt b a = false := by
  simp [LeStr, lexLe]

theorem LeStr_total : ∀ a b : List Char, LeStr a b ∨ LeStr b a := by
  intro a b
  by_cases h : lexLt b a = true
  · exact Or.inr (LeStr_iff.mpr (lexLt_asymm b a h))
  · exact Or.inl (LeStr_iff.mpr (by simpa using h))

theorem LeStr_trans : ∀ a b c : List Char, LeStr a b → LeStr b c → LeStr a c := by
  intro a b c h1 h2
  rw [LeStr_iff] at h1 h2 ⊢
  by_cases hca : lexLt c a = true
  · by_cases hbc : lexLt b c = true
    · have := lexLt_trans b c a hbc hca
      rw [this] at h1; exact absurd h1 (by simp)
    · have hbe : b = c := lexLt_eq b c (by simpa using hbc) h2
      subst hbe
      rw [hca] at h1; exact absurd h1 (by simp)
  · simpa using hca

theorem LeStr_antisymm : ∀ a b : List Char, LeStr a b → LeStr b a → a = b := by
  intro a b h1 h2
  rw [LeStr_iff] at h1 h2
  exact lexLt_eq a b h2 h1

theorem LeStr_of_lexLt {a b : List Char} (h : lexLt a b = true) : LeStr a b :=
  LeStr_iff.mpr (lexLt_asymm a b h)

theorem lexLt_append_left : ∀ (p a b : List Char), lexLt (p ++ a) (p ++ b) = lexLt a b := by
  intro p
  induction p with
  | nil => intro a b; rfl
  | cons c cs ih => intro a b; simp [lexLt, ih]

theorem lexLt_cons_lt {c e : Char} (h : c < e) (x y : List Char) :
    lexLt (c :: x) (e :: y) = true := by
  simp [lexLt, h]

theorem lexLt_cons_eq (c : Char) (x y : List Char) :
    lexLt (c :: x) (c :: y) = lexLt x y := by
  simp [lexLt]

theorem lexLt_append_eqlen : ∀ (a b s t : List Char), a.length = b.length →
    lexLt a b = true → lexLt (a ++ s) (b ++ t) = true := by
  intro a
  induction a with
  | nil =>
    intro b s t hl h
    cases b with
    | nil => simp [lexLt] at h
    | cons y ys => simp at hl
  | cons x xs ih =>
    intro b s t hl h
    cases b with
    | nil => simp [lexLt] at h
    | cons y ys =>
      simp only [lexLt, List.cons_append] at h ⊢
      by_cases hxy : x < y
      · rw [if_pos hxy]
      · rw [if_neg hxy] at h ⊢
        by_cases hxe : x = y
        · rw [if_pos hxe] at h ⊢
          exact ih ys s t (by simpa using hl) h
        · rw [if_neg hxe] at h; exact absurd h (by simp)

/-! ### Decimal digits and frame names -/

theorem natDigitsAux_irrel : ∀ (f g n : Nat), n < f → n < g →
    natDigitsAux f n = natDigitsAux g n := by
  intro f
  induction f with
  | zero => intro g n hf; omega
  | succ f ih =>
    intro g n hf hg
    cases g with
    | zero => omega
    | succ g =>
      simp only [natDigitsAux]
      by_cases h : n < 10
      · simp [h]
      · rw [if_neg h, if_neg h]
        have hdiv : n / 10 < n := Nat.div_lt_self (by omega) (by omega)
        rw [ih g (n / 10) (by omega) (by omega)]

theorem natDigits_small {n : Nat} (h : n < 10) : natDigits n = [n] := by
  simp [natDigits, natDigitsAux, h]

theorem natDigits_step {n : Nat} (h : 10 ≤ n) :
    natDigits n = natDigits (n / 10) ++ [n % 10] := by
  have hdiv : n / 10 < n := Nat.div_lt_self (by omega) (by omega)
  have h1 : natDigits n = natDigitsAux n (n / 10) ++ [n % 10] := by
    rw [natDigits]
    show (if n < 10 then [n] else natDigitsAux n (n / 10) ++ [n % 10]) = _
    rw [if_neg (by omega : ¬ n < 10)]
  rw [h1, natDigits, natDigitsAux_irrel n (n / 10 + 1) (n / 10) (by omega) (by omega)]

theorem natDigits_lt10 : ∀ n, ∀ x ∈ natDigits n, x < 10 := by
  intro n
  induction n using Nat.strong_induction_on with
  | _ n ih =>
    by_cases h : n < 10
    · rw [natDigits_small h]
      intro x hx
      simp at hx
      omega
    · rw [natDigits_step (by omega)]
      intro x hx
      rcases List.mem_append.mp hx with h1 | h1
      · exact ih (n / 10) (Nat.div_lt_self (by omega) (by omega)) x h1
      · simp at h1; omega

theorem pad4digits_eq {n : Nat} (h : n < 10000) :
    pad4digits n = [n / 1000, n / 100 % 10, n / 10 % 10, n % 10] := by
  rcases (by omega :
      n < 10 ∨ (10 ≤ n ∧ n < 100) ∨ (100 ≤ n ∧ n < 1000) ∨ (1000 ≤ n ∧ n < 10000)) with
    h1 | h1 | h1 | h1
  · have e1 : n / 1000 = 0 := by omega
    have e2 : n / 100 % 10 = 0 := by omega
    have e3 : n / 10 % 10 = 0 := by omega
    have e4 : n % 10 = n := by omega
    rw [pad4digits, natDigits_small h1, e1, e2, e3, e4]
    rfl
  · have e1 : n / 1000 = 0 := by omega
    have e2 : n / 100 % 10 = 0 := by omega
    have e3 : n / 10 % 10 = n / 10 := by omega
    rw [pad4digits, natDigits_step (by omega), natDigits_small (by omega : n / 10 < 10),
      e1, e2, e3]
    rfl
  · have e1 : n / 1000 = 0 := by omega
    have e2 : n / 100 % 10 = n / 100 := by omega
    rw [pad4digits, natDigits_step (by omega),
      natDigits_step (by omega : 10 ≤ n / 10), Nat.div_div_eq_div_mul]
    norm_num
    rw [natDigits_small (by omega : n / 100 < 10), e1, e2]
    rfl
  · rw [pad4digits, natDigits_step (by omega),
      natDigits_step (by omega : 10 ≤ n / 10), Nat.div_div_eq_div_mul]
    norm_num
    rw [natDigits_step (by omega : 10 ≤ n / 100), Nat.div_div_eq_div_mul]
    norm_num
    rw [natDigits_small (by omega : n / 1000 < 10)]
    rfl

theorem digitChar_lt {d e : Nat} (hde : d < e) (he : e < 10) :
    digitChar d < digitChar e := by
  have hd : d < 10 := by omega
  have key : ∀ p q : Fin 10, p.val < q.val → digitChar p.val < digitChar q.val := by decide
  exact key ⟨d, hd⟩ ⟨e, he⟩ hde

theorem digitChar_inj {d e : Nat} (hd : d < 10) (he : e < 10)
    (h : digitChar d = digitChar e) : d = e := by
  have key : ∀ p q : Fin 10, digitChar p.val = digitChar q.val → p.val = q.val := by decide
  exact key ⟨d, hd⟩ ⟨e, he⟩ h

theorem undigits_append (l : List Nat) (d : Nat) :
    undigits (l ++ [d]) = 10 * undigits l + d := by
  simp [undigits, List.foldl_append]

theorem undigits_natDigits : ∀ n, undigits (natDigits n) = n := by
  intro n
  induction n using Nat.strong_induction_on with
  | _ n ih =>
    by_cases h : n < 10
    · rw [natDigits_small h]
      simp [undigits]
    · rw [natDigits_step (by omega), undigits_append,
        ih (n / 10) (Nat.div_lt_self (by omega) (by omega))]
      omega

theorem undigits_replicate_zero : ∀ (k : Nat) (l : List Nat),
    undigits (List.replicate k 0 ++ l) = undigits l := by
  intro k
  induction k with
  | zero => intro l; rfl
  | succ k ih =>
    intro l
    rw [List.replicate_succ, List.cons_append]
    have h0 : undigits (0 :: (List.replicate k 0 ++ l)) =
        undigits (List.replicate k 0 ++ l) := rfl
    rw [h0, ih]

theorem undigits_pad4 (n : Nat) : undigits (pad4digits n) = n := by
  rw [pad4digits, undigits_replicate_zero, undigits_natDigits]

theorem pad4digits_lt10 : ∀ n, ∀ x ∈ pad4digits n, x < 10 := by
  intro n x hx
  rw [pad4digits] at hx
  rcases List.mem_append.mp hx with h | h
  · have := List.eq_of_mem_replicate h
    omega
  · exact natDigits_lt10 n x h

theorem map_digitChar_inj : ∀ (a b : List Nat), (∀ x ∈ a, x < 10) → (∀ x ∈ b, x < 10) →
    a.map digitChar = b.map digitChar → a = b := by
  intro a
  induction a with
  | nil =>
    intro b _ _ h
    cases b with
    | nil => rfl
    | cons y ys => simp at h
  | cons x xs ih =>
    intro b ha hb h
    cases b with
    | nil => simp at h
    | cons y ys =>
      simp only [List.map_cons, List.cons.injEq] at h
      have hx : x = y := digitChar_inj (ha x (by simp)) (hb y (by simp)) h.1
      rw [hx, ih ys (fun z hz => ha z (List.mem_cons_of_mem x hz))
        (fun z hz => hb z (List.mem_cons_of_mem y hz)) h.2]

theorem frame_name_inj : ∀ i j, frame_name i = frame_name j → i = j := by
  intro i j h
  rw [frame_name, frame_name, List.append_assoc, List.append_assoc] at h
  have h1 := List.append_cancel_left h
  have hlen : ((pad4digits i).map digitChar).length = ((pad4digits j).map digitChar).length := by
    have := congrArg List.length h1
    simp only [List.length_append] at this
    omega
  have h2 := (List.append_inj h1 hlen).1
  have h3 := map_digitChar_inj _ _ (fun x hx => pad4digits_lt10 i x hx)
    (fun x hx => pad4digits_lt10 j x hx) h2
  have h4 := congrArg undigits h3
  rwa [undigits_pad4, undigits_pad4] at h4

theorem pathOf_inj : ∀ i j, pathOf i = pathOf j → i = j := by
  intro i j h
  rw [pathOf, pathOf, path_join, path_join] at h
  have h1 := List.append_cancel_left h
  simp only [List.cons.injEq, true_and] at h1
  exact frame_name_inj i j h1

theorem pathOf_eq (i : Nat) :
    pathOf i = "temp/frame_".data ++ ((pad4digits i).map digitChar ++ ".png".data) := rfl

theorem pathOf_lexLt {i j : Nat} (hij : i < j) (hj : j < 10000) :
    lexLt (pathOf i) (pathOf j) = true := by
  rw [pathOf_eq, pathOf_eq, lexLt_append_left]
  have hi : i < 10000 := by omega
  rw [pad4digits_eq hi, pad4digits_eq hj]
  simp only [List.map_cons, List.map_nil, List.cons_append, List.nil_append]
  have key : i / 1000 < j / 1000 ∨ (i / 1000 = j / 1000 ∧
      (i / 100 % 10 < j / 100 % 10 ∨ (i / 100 % 10 = j / 100 % 10 ∧
      (i / 10 % 10 < j / 10 % 10 ∨ (i / 10 % 10 = j / 10 % 10 ∧ i % 10 < j % 10))))) := by
    omega
  rcases key with h1 | ⟨h1, h2⟩
  · exact lexLt_cons_lt (digitChar_lt h1 (by omega)) _ _
  · rw [h1, lexLt_cons_eq]
    rcases h2 with h2 | ⟨h2, h3⟩
    · exact lexLt_cons_lt (digitChar_lt h2 (by omega)) _ _
    · rw [h2, lexLt_cons_eq]
      rcases h3 with h3 | ⟨h3, h4⟩
      · exact lexLt_cons_lt (digitChar_lt h3 (by omega)) _ _
      · rw [h3, lexLt_cons_eq]
        exact lexLt_cons_lt (digitChar_lt h4 (by omega)) _ _

theorem pathOf_LeStr {i j : Nat} (hij : i < j) (hj : j < 10000) :
    LeStr (pathOf i) (pathOf j) :=
  LeStr_of_lexLt (pathOf_lexLt hij hj)

/-! ### Cleanup (src/src/sim.py lines 69-74) -/

theorem foldRemove_skip (f : Entry) (hf : ¬ f.1.1 = "temp".data) :
    ∀ (ns : List (List Char)) (dirs : List (List Char)) (l : List Entry),
    (ns.foldlM (fun s n => os_remove s ("temp".data, n)) (⟨dirs, f :: l⟩ : FS))
      = (ns.foldlM (fun s n => os_remove s ("temp".data, n)) (⟨dirs, l⟩ : FS)).map
          (fun s => ⟨s.dirs, f :: s.files⟩) := by
  intro ns
  induction ns with
  | nil => intro dirs l; rfl
  | cons n ns ih =>
    intro dirs l
    rw [List.foldlM_cons, List.foldlM_cons]
    have hkey : ¬ f.1 = ("temp".data, n) := by
      intro hcon
      exact hf (by rw [hcon])
    by_cases hex : ∃ e ∈ l, e.1 = ("temp".data, n)
    · have hex' : ∃ e ∈ f :: l, e.1 = ("temp".data, n) := by
        obtain ⟨e, he, hek⟩ := hex
        exact ⟨e, List.mem_cons_of_mem f he, hek⟩
      rw [os_remove, if_pos hex', os_remove, if_pos hex]
      simp only [removeEntry, if_neg hkey]
      exact ih dirs (removeEntry l ("temp".data, n))
    · have hex' : ¬ ∃ e ∈ f :: l, e.1 = ("temp".data, n) := by
        rintro ⟨e, he, hek⟩
        rcases List.mem_cons.mp he with rfl | he'
        · exact hkey hek
        · exact hex ⟨e, he', hek⟩
      rw [os_remove, if_neg hex', os_remove, if_neg hex]
      rfl

theorem foldRemove_all : ∀ (l : List Entry) (dirs : List (List Char)),
    (((l.filter (fun e => decide (e.1.1 = "temp".data))).map (fun e => e.1.2)).foldlM
        (fun s n => os_remove s ("temp".data, n)) (⟨dirs, l⟩ : FS))
      = .ok ⟨dirs, l.filter (fun e => decide (¬ e.1.1 = "temp".data))⟩ := by
  intro l
  induction l with
  | nil => intro dirs; rfl
  | cons f rest ih =>
    intro dirs
    by_cases hf : f.1.1 = "temp".data
    · rw [List.filter_cons_of_pos (by simpa using hf), List.map_cons, List.foldlM_cons]
      have hex : ∃ e ∈ f :: rest, e.1 = ("temp".data, f.1.2) := by
        refine ⟨f, List.mem_cons_self f rest, ?_⟩
        rw [← hf]
      rw [os_remove, if_pos hex]
      have hkey : f.1 = ("temp".data, f.1.2) := by rw [← hf]
      have hrm : removeEntry (f :: rest) ("temp".data, f.1.2) = rest := by
        rw [removeEntry, if_pos hkey]
      rw [hrm]
      have hbind : ∀ (v : FS) (g : FS → Except OSErr FS), (Except.ok v >>= g) = g v :=
        fun _ _ => rfl
      rw [hbind]
      rw [ih dirs, List.filter_cons_of_neg (by simpa using hf)]
    · rw [List.filter_cons_of_neg (by simpa using hf)]
      rw [foldRemove_skip f hf, ih dirs, List.filter_cons_of_pos (by simpa using hf)]
      rfl

theorem cleanup_spec (fs : FS) (h : "temp".data ∈ fs.dirs) :
    cleanup fs = .ok ⟨fs.dirs.erase "temp".data,
      fs.files.filter (fun e => decide (¬ e.1.1 = "temp".data))⟩ := by
  rw [cleanup, if_pos h]
  show ((listdirNames fs "temp".data).foldlM
      (fun s n => os_remove s ("temp".data, n)) fs) >>= (fun fs1 => os_rmdir fs1 "temp".data) = _
  rw [listdirNames]
  have key := foldRemove_all fs.files fs.dirs
  rw [key]
  show os_rmdir ⟨fs.dirs, _⟩ "temp".data = _
  rw [os_rmdir, if_pos h]
  have hempty : ¬ ∃ e ∈ fs.files.filter (fun e => decide (¬ e.1.1 = "temp".data)),
      e.1.1 = "temp".data := by
    rintro ⟨e, he, hek⟩
    have := (List.mem_filter.mp he).2
    simp at this
    exact this hek
  rw [if_neg hempty]

theorem cleanup_missing (fs : FS) (h : "temp".data ∉ fs.dirs) :
    cleanup fs = .error .fileNotFound := by
  rw [cleanup, if_neg h]

/-! ### The worker pool -/

theorem argsOf_get? {traj : List Snapshot} {k : Nat} (hk : k < traj.length) :
    (argsOf traj).get? k = some (k, traj.getD k []) := by
  rw [argsOf, List.get?_map, List.get?_range hk]
  rfl

theorem getD_dimOK {figs : List Figure} (h : figsDimOK figs) :
    (figs.getD 0 newFigure).width = 640 ∧ (figs.getD 0 newFigure).height = 480 := by
  cases figs with
  | nil => exact ⟨rfl, rfl⟩
  | cons f rest => exact h f (List.mem_cons_self f rest)

theorem rasterize_renderFig (g : Globals) (w h : Nat) (a : Axes) (i : Nat) (ps : Snapshot)
    (hw : w = 640) (hh : h = 480) :
    rasterize (renderFig g ⟨w, h, a⟩ i ps) = pngParallel g i ps := by
  subst hw
  subst hh
  rfl

theorem process_frame_eq (g : Globals) (env : Env) (figs : List Figure) (fs : FS)
    (i : Nat) (ps : Snapshot) :
    process_frame g env figs fs (i, ps) =
      if env.savefigFails (path_join g.temp_dir (frame_name i)) then .error .renderError
      else .ok (figs.set g.figIdx (renderFig g (figs.getD g.figIdx newFigure) i ps),
        writeFile fs (g.temp_dir, frame_name i)
          (rasterize (renderFig g (figs.getD g.figIdx newFigure) i ps)),
        path_join g.temp_dir (frame_name i)) := rfl

theorem workerFold_ok_of_nofail (g : Globals) (env : Env)
    (hfail : ∀ p, env.savefigFails p = false) :
    ∀ (ord : List Nat) (st : List Figure × FS) (args : List (Nat × Snapshot)),
    (workerFold g env st ord args).2 = none := by
  intro ord
  induction ord with
  | nil => intro st args; rfl
  | cons k rest ih =>
    intro st args
    rw [workerFold]
    split
    · exact ih st args
    · next a hk =>
      split
      · next e' heq =>
        obtain ⟨i, ps⟩ := a
        rw [process_frame_eq, if_neg (by simp [hfail])] at heq
        cases heq
      · exact ih _ args

theorem workerFold_err (g : Globals) (env : Env) :
    ∀ (ord : List Nat) (st : List Figure × FS) (args : List (Nat × Snapshot)) (e : PipelineError),
    (workerFold g env st ord args).2 = some e → e = .renderError := by
  intro ord
  induction ord with
  | nil => intro st args e h; simp [workerFold] at h
  | cons k rest ih =>
    intro st args e h
    rw [workerFold] at h
    split at h
    · exact ih st args e h
    · next a hk =>
      split at h
      · next e' heq =>
        obtain ⟨i, ps⟩ := a
        rw [process_frame_eq] at heq
        by_cases hf : env.savefigFails (path_join g.temp_dir (frame_name i)) = true
        · rw [if_pos hf] at heq
          cases heq
          cases h
          rfl
        · rw [if_neg hf] at heq
          cases heq
      · exact ih _ args e h

theorem workerFold_dirs (g : Globals) (env : Env) :
    ∀ (ord : List Nat) (st : List Figure × FS) (args : List (Nat × Snapshot)),
    ((workerFold g env st ord args).1.2).dirs = st.2.dirs := by
  intro ord
  induction ord with
  | nil => intro st args; rfl
  | cons k rest ih =>
    intro st args
    rw [workerFold]
    split
    · exact ih st args
    · next a hk =>
      split
      · rfl
      · next figs' fs' snd heq =>
        rw [ih]
        obtain ⟨i, ps⟩ := a
        rw [process_frame_eq] at heq
        by_cases hf : env.savefigFails (path_join g.temp_dir (frame_name i)) = true
        · rw [if_pos hf] at heq; cases heq
        · rw [if_neg hf] at heq
          cases heq
          rfl

theorem workerFold_store_len (g : Globals) (env : Env) :
    ∀ (ord : List Nat) (st : List Figure × FS) (args : List (Nat × Snapshot)),
    ((workerFold g env st ord args).1.1).length = st.1.length := by
  intro ord
  induction ord with
  | nil => intro st args; rfl
  | cons k rest ih =>
    intro st args
    rw [workerFold]
    split
    · exact ih st args
    · next a hk =>
      split
      · rfl
      · next figs' fs' snd heq =>
        rw [ih]
        obtain ⟨i, ps⟩ := a
        rw [process_frame_eq] at heq
        by_cases hf : env.savefigFails (path_join g.temp_dir (frame_name i)) = true
        · rw [if_pos hf] at heq; cases heq
        · rw [if_neg hf] at heq
          cases heq
          simp [List.length_set]

theorem figsDimOK_set {figs : List Figure} (h : figsDimOK figs) (f : Figure)
    (hw : f.width = 640) (hh : f.height = 480) (n : Nat) : figsDimOK (figs.set n f) := by
  intro x hx
  rcases List.mem_or_eq_of_mem_set hx with h1 | h1
  · exact h x h1
  · rw [h1]; exact ⟨hw, hh⟩

theorem rasterize_renderFig' (g : Globals) (fig : Figure) (i : Nat) (ps : Snapshot)
    (hw : fig.width = 640) (hh : fig.height = 480) :
    rasterize (renderFig g fig i ps) = pngParallel g i ps := by
  cases fig with
  | mk w h a => exact rasterize_renderFig g w h a i ps hw hh

theorem workerFold_clean (d : SimData) (env : Env)
    (hfail : ∀ p, env.savefigFails p = false) :
    ∀ (ord : List Nat) (figs : List Figure) (dirs : List (List Char)) (acc : List Nat),
    figsDimOK figs →
    (∀ k ∈ ord, k < d.trajectory.length) →
    ord.Nodup →
    (∀ k ∈ ord, k ∉ acc) →
    ∃ figs', workerFold (globalsOf d) env
        (figs, ⟨dirs, acc.map (entryOf (globalsOf d) d.trajectory)⟩) ord (argsOf d.trajectory)
      = ((figs', ⟨dirs, (acc ++ ord).map (entryOf (globalsOf d) d.trajectory)⟩), none)
      ∧ figsDimOK figs' := by
  intro ord
  induction ord with
  | nil =>
    intro figs dirs acc hdim _ _ _
    refine ⟨figs, ?_, hdim⟩
    rw [List.append_nil]
    rfl
  | cons k rest ih =>
    intro figs dirs acc hdim hbound hnodup hdisj
    have hk : k < d.trajectory.length := hbound k (List.mem_cons_self k rest)
    have hkacc : k ∉ acc := hdisj k (List.mem_cons_self k rest)
    have hfilter : (acc.map (entryOf (globalsOf d) d.trajectory)).filter
        (fun e => decide (¬ e.1 = ((globalsOf d).temp_dir, frame_name k)))
        = acc.map (entryOf (globalsOf d) d.trajectory) := by
      rw [List.filter_eq_self]
      intro e he
      obtain ⟨j, hj, rfl⟩ := List.mem_map.mp he
      simp only [decide_eq_true_eq]
      intro hcon
      have hjk : j = k := frame_name_inj j k (congrArg Prod.snd hcon)
      rw [hjk] at hj
      exact hkacc hj
    obtain ⟨hw0, hh0⟩ := getD_dimOK hdim
    have hpng : rasterize (renderFig (globalsOf d)
          (figs.getD (globalsOf d).figIdx newFigure) k (d.trajectory.getD k []))
        = pngParallel (globalsOf d) k (d.trajectory.getD k []) :=
      rasterize_renderFig' (globalsOf d) _ k _ hw0 hh0
    obtain ⟨figs', hW, hdim'⟩ := ih
      (figs.set (globalsOf d).figIdx
        (renderFig (globalsOf d) (figs.getD (globalsOf d).figIdx newFigure) k
          (d.trajectory.getD k [])))
      dirs (acc ++ [k])
      (figsDimOK_set hdim
        (renderFig (globalsOf d) (figs.getD (globalsOf d).figIdx newFigure) k
          (d.trajectory.getD k []))
        hw0 hh0 _)
      (fun j hj => hbound j (List.mem_cons_of_mem _ hj))
      (List.Nodup.of_cons hnodup)
      (by
        intro j hj
        have hja : j ∉ acc := hdisj j (List.mem_cons_of_mem _ hj)
        have hkr : k ∉ rest := (List.nodup_cons.mp hnodup).1
        simp only [List.mem_append, List.mem_singleton]
        rintro (hca | rfl)
        · exact hja hca
        · exact hkr hj)
    refine ⟨figs', ?_, hdim'⟩
    rw [workerFold]
    split
    · next hnone =>
      rw [argsOf_get? hk] at hnone
      cases hnone
    · next a hsome =>
      rw [argsOf_get? hk] at hsome
      cases hsome
      split
      · next e heq =>
        rw [process_frame_eq, if_neg (by simp [hfail])] at heq
        cases heq
      · next figs'' fs'' snd heq =>
        rw [process_frame_eq, if_neg (by simp [hfail])] at heq
        cases heq
        have hfiles : (acc.map (entryOf (globalsOf d) d.trajectory)).filter
              (fun e => decide (¬ e.1 = ((globalsOf d).temp_dir, frame_name k)))
            ++ [(((globalsOf d).temp_dir, frame_name k),
                pngParallel (globalsOf d) k (d.trajectory.getD k []))]
            = (acc ++ [k]).map (entryOf (globalsOf d) d.trajectory) := by
          rw [hfilter, List.map_append]
          rfl
        rw [writeFile, hpng, hfiles]
        rw [hW, List.append_assoc, List.singleton_append]

theorem argsOf_get?_eq {traj : List Snapshot} {k : Nat} {a : Nat × Snapshot}
    (h : (argsOf traj).get? k = some a) : a = (k, traj.getD k []) := by
  have hk : k < traj.length := by
    by_contra hc
    have hlen : (argsOf traj).length ≤ k := by
      rw [argsOf, List.length_map, List.length_range]
      omega
    rw [List.get?_eq_none.mpr hlen] at h
    cases h
  rw [argsOf_get? hk] at h
  cases h
  rfl

/-! ### Video assembly from the scratch directory -/

theorem np_array_ok {traj : List Snapshot} (h : uniform traj = true) :
    np_array traj = .ok traj := by
  rw [np_array, if_pos h]

theorem np_array_err {traj : List Snapshot} (h : uniform traj = false) :
    np_array traj = .error .valueError := by
  rw [np_array, if_neg (by simp [h])]

theorem allSameDims_of_const {l : List Png}
    (h : ∀ p ∈ l, p.width = 640 ∧ p.height = 480) : allSameDims l = true := by
  cases l with
  | nil => rfl
  | cons p rest =>
    rw [allSameDims, List.all_eq_true]
    intro q hq
    obtain ⟨hw, hh⟩ := h q (List.mem_cons_of_mem p hq)
    obtain ⟨hw', hh'⟩ := h p (List.mem_cons_self p rest)
    simp [hw, hh, hw', hh']

theorem pngParallel_dims (g : Globals) (i : Nat) (ps : Snapshot) :
    (pngParallel g i ps).width = 640 ∧ (pngParallel g i ps).height = 480 := ⟨rfl, rfl⟩

theorem clip_dir_ok_sorted {fs : FS} {dd : List Char} {v : List (List Char)}
    (h : image_sequence_clip_dir fs dd = .ok v) : v.Sorted LeStr := by
  haveI : IsTotal Entry entryLe := ⟨fun a b => LeStr_total _ _⟩
  haveI : IsTrans Entry entryLe := ⟨fun a b c hab hbc => LeStr_trans _ _ _ hab hbc⟩
  rw [image_sequence_clip_dir] at h
  split at h
  · cases h
  · next e es hE =>
    split at h
    · next hdims =>
      cases h
      exact List.pairwise_map.mpr (List.sorted_insertionSort entryLe _)
    · cases h

theorem target_sorted (n : Nat) (hmax : n ≤ 10000) :
    ((List.range n).map pathOf).Sorted LeStr := by
  rw [List.Sorted, List.pairwise_map]
  refine List.Pairwise.imp_of_mem ?_ (List.pairwise_lt_range n)
  intro a b _ hb hab
  refine pathOf_LeStr hab ?_
  have := List.mem_range.mp hb
  omega

theorem clip_dir_clean (d : SimData) (ord : List Nat) (dirs : List (List Char))
    (hord : ord.Perm (List.range d.trajectory.length))
    (hn : 1 ≤ d.trajectory.length) (hmax : d.trajectory.length ≤ 10000) :
    image_sequence_clip_dir ⟨dirs, ord.map (entryOf (globalsOf d) d.trajectory)⟩ "temp".data
      = .ok ((List.range d.trajectory.length).map pathOf) := by
  haveI : IsTotal Entry entryLe := ⟨fun a b => LeStr_total _ _⟩
  haveI : IsTrans Entry entryLe := ⟨fun a b c hab hbc => LeStr_trans _ _ _ hab hbc⟩
  haveI : IsAntisymm (List Char) LeStr := ⟨fun a b hab hba => LeStr_antisymm a b hab hba⟩
  have hfil : (ord.map (entryOf (globalsOf d) d.trajectory)).filter
      (fun e => decide (e.1.1 = "temp".data)) = ord.map (entryOf (globalsOf d) d.trajectory) := by
    rw [List.filter_eq_self]
    intro e he
    obtain ⟨j, hj, rfl⟩ := List.mem_map.mp he
    simp [entryOf, globalsOf]
  rw [image_sequence_clip_dir, hfil]
  split
  · next hE =>
    have hlen := congrArg List.length hE
    rw [(List.perm_insertionSort entryLe _).length_eq, List.length_map] at hlen
    simp only [List.length_nil] at hlen
    have hol := hord.length_eq
    rw [List.length_range, hlen] at hol
    omega
  · next e es hE =>
    have hdims : allSameDims ((List.insertionSort entryLe
        (ord.map (entryOf (globalsOf d) d.trajectory))).map (fun en => en.2)) = true := by
      apply allSameDims_of_const
      intro p hp
      obtain ⟨x, hx, rfl⟩ := List.mem_map.mp hp
      have hx' := (List.perm_insertionSort entryLe _).subset hx
      obtain ⟨j, _, rfl⟩ := List.mem_map.mp hx'
      exact pngParallel_dims (globalsOf d) j _
    rw [if_pos hdims]
    have hperm : List.Perm
        ((List.insertionSort entryLe
          (ord.map (entryOf (globalsOf d) d.trajectory))).map
            (fun en => path_join en.1.1 en.1.2))
        ((List.range d.trajectory.length).map pathOf) := by
      have p1 := List.perm_insertionSort entryLe (ord.map (entryOf (globalsOf d) d.trajectory))
      have p2 := hord.map (entryOf (globalsOf d) d.trajectory)
      have p3 := (p1.trans p2).map (fun en => path_join en.1.1 en.1.2)
      rw [List.map_map] at p3
      exact p3
    have hs1 : ((List.insertionSort entryLe
          (ord.map (entryOf (globalsOf d) d.trajectory))).map
            (fun en => path_join en.1.1 en.1.2)).Sorted LeStr :=
      List.pairwise_map.mpr (List.sorted_insertionSort entryLe _)
    rw [List.eq_of_perm_of_sorted hperm hs1 (target_sorted _ hmax)]

/-! ### Structure of a full run of the parallel script -/

theorem runParallel_video_sorted (d : SimData) (env : Env) (fs0 : FS) (ord : List Nat)
    (v : List (List Char)) (h : (runParallel d env fs0 ord).video = some v) :
    v.Sorted LeStr := by
  rw [runParallel] at h
  split at h
  · cases h
  · next traj hnp =>
    split at h
    · cases h
    · next st hW =>
      split at h
      · cases h
      · next video hclip =>
        split at h
        · next e hcl =>
          cases h
          exact clip_dir_ok_sorted hclip
        · next fs3 hcl =>
          cases h
          exact clip_dir_ok_sorted hclip

theorem workerFold_preserve (d : SimData) (env : Env) :
    ∀ (ord : List Nat) (st : List Figure × FS) (e : Entry)
      (figs' : List Figure) (fs' : FS),
    workerFold (globalsOf d) env st ord (argsOf d.trajectory) = ((figs', fs'), none) →
    e ∈ st.2.files → (∀ k ∈ ord, ¬ e.1 = ("temp".data, frame_name k)) →
    e ∈ fs'.files := by
  intro ord
  induction ord with
  | nil =>
    intro st e figs' fs' hW he _
    cases hW
    exact he
  | cons k rest ih =>
    intro st e figs' fs' hW he hnk
    rw [workerFold] at hW
    split at hW
    · exact ih st e figs' fs' hW he (fun j hj => hnk j (List.mem_cons_of_mem _ hj))
    · next a hk =>
      have ha := argsOf_get?_eq hk
      split at hW
      · cases hW
      · next figs'' fs'' snd heq =>
        refine ih _ e figs' fs' hW ?_ (fun j hj => hnk j (List.mem_cons_of_mem _ hj))
        rw [ha, process_frame_eq] at heq
        by_cases hf : env.savefigFails
            (path_join (globalsOf d).temp_dir (frame_name k)) = true
        · rw [if_pos hf] at heq; cases heq
        · rw [if_neg hf] at heq
          cases heq
          rw [writeFile]
          refine List.mem_append.mpr (Or.inl (List.mem_filter.mpr ⟨he, ?_⟩))
          simp only [decide_eq_true_eq]
          exact hnk k (List.mem_cons_self k rest)

theorem workerFold_writes (d : SimData) (env : Env) :
    ∀ (ord : List Nat) (st : List Figure × FS) (figs' : List Figure) (fs' : FS),
    ord.Nodup →
    workerFold (globalsOf d) env st ord (argsOf d.trajectory) = ((figs', fs'), none) →
    ∀ k ∈ ord, k < d.trajectory.length →
    ∃ p, (("temp".data, frame_name k), p) ∈ fs'.files := by
  intro ord
  induction ord with
  | nil =>
    intro st figs' fs' _ _ k hk
    cases hk
  | cons k0 rest ih =>
    intro st figs' fs' hnd hW k hk hklen
    rw [workerFold] at hW
    split at hW
    · next hk0 =>
      rcases List.mem_cons.mp hk with rfl | hkr
      · rw [argsOf_get? hklen] at hk0
        cases hk0
      · exact ih st figs' fs' (List.Nodup.of_cons hnd) hW k hkr hklen
    · next a hk0 =>
      have ha := argsOf_get?_eq hk0
      split at hW
      · cases hW
      · next figs'' fs'' snd heq =>
        rw [ha, process_frame_eq] at heq
        by_cases hf : env.savefigFails
            (path_join (globalsOf d).temp_dir (frame_name k0)) = true
        · rw [if_pos hf] at heq; cases heq
        · rw [if_neg hf] at heq
          cases heq
          rcases List.mem_cons.mp hk with rfl | hkr
          · refine ⟨rasterize (renderFig (globalsOf d)
                (st.1.getD (globalsOf d).figIdx newFigure) k (d.trajectory.getD k [])), ?_⟩
            refine workerFold_preserve d env rest _ _ figs' fs' hW ?_ ?_
            · rw [writeFile]
              exact List.mem_append.mpr (Or.inr (List.mem_singleton.mpr rfl))
            · intro j hj hcon
              have hjk : k = j := frame_name_inj k j (congrArg Prod.snd hcon)
              rw [hjk] at hnd
              exact (List.nodup_cons.mp hnd).1 hj
          · exact ih _ figs' fs' (List.Nodup.of_cons hnd) hW k hkr hklen

theorem np_array_err_only {traj : List Snapshot} {e : PipelineError}
    (h : np_array traj = .error e) : e = .valueError := by
  rw [np_array] at h
  split at h
  · cases h
  · cases h
    rfl

theorem np_array_ok_eq {traj traj' : List Snapshot}
    (h : np_array traj = .ok traj') : traj' = traj := by
  rw [np_array] at h
  split at h
  · cases h
    rfl
  · cases h

theorem os_makedirs_mem (fs : FS) (dd : List Char) : dd ∈ (os_makedirs fs dd).dirs := by
  rw [os_makedirs]
  split
  · next h => exact h
  · exact List.mem_cons_self _ _

theorem workerFold_fails (d : SimData) (env : Env) :
    ∀ (ord : List Nat) (st : List Figure × FS),
    (∃ k ∈ ord, k < d.trajectory.length ∧ env.savefigFails (pathOf k) = true) →
    (workerFold (globalsOf d) env st ord (argsOf d.trajectory)).2 ≠ none := by
  intro ord
  induction ord with
  | nil =>
    rintro st ⟨k, hk, _⟩
    cases hk
  | cons k0 rest ih =>
    rintro st ⟨k, hk, hklen, hkf⟩
    rw [workerFold]
    split
    · next hk0 =>
      rcases List.mem_cons.mp hk with rfl | hkr
      · rw [argsOf_get? hklen] at hk0
        cases hk0
      · exact ih st ⟨k, hkr, hklen, hkf⟩
    · next a hk0 =>
      have ha := argsOf_get?_eq hk0
      split
      · next e heq => simp
      · next figs'' fs'' snd heq =>
        rcases List.mem_cons.mp hk with rfl | hkr
        · exfalso
          rw [ha, process_frame_eq] at heq
          have hkf' : env.savefigFails
              (path_join (globalsOf d).temp_dir (frame_name k)) = true := hkf
          rw [if_pos hkf'] at heq
          cases heq
        · exact ih _ ⟨k, hkr, hklen, hkf⟩

/-! ### The sequential script -/

theorem seqFold_titles (d : SimData) :
    ∀ (l : List (Nat × Snapshot)) (fig : Figure) (acc : List Png),
    ((l.foldl (seqStep d) (fig, acc)).2).map (fun p => p.content.title)
      = acc.map (fun p => p.content.title)
        ++ l.map (fun ip => "Timestep ".data ++ decChars (ip.1 * d.snapshot_interval)) := by
  intro l
  induction l with
  | nil => intro fig acc; simp
  | cons ip rest ih =>
    intro fig acc
    obtain ⟨i, ps⟩ := ip
    rw [List.foldl_cons, ih]
    simp [seqStep, rasterize, plt_tight_layout, plt_title, ax_legend, ax_scatter,
      ax_set_zlabel, ax_set_ylabel, ax_set_xlabel, ax_set_zlim, ax_set_ylim, ax_set_xlim,
      ax_clear, List.map_append]

theorem seqFrames_titles (d : SimData) :
    (seqFrames d).map (fun p => p.content.title)
      = (List.range d.trajectory.length).map
          (fun j => "Timestep ".data ++ decChars (j * d.snapshot_interval)) := by
  rw [seqFrames, seqFold_titles]
  simp only [List.map_nil, List.nil_append]
  have h1 : d.trajectory.enum.map
      (fun ip => "Timestep ".data ++ decChars (ip.1 * d.snapshot_interval))
      = (d.trajectory.enum.map Prod.fst).map
          (fun j => "Timestep ".data ++ decChars (j * d.snapshot_interval)) := by
    rw [List.map_map]
    rfl
  rw [h1, List.enum_map_fst]

theorem seqFold_dims (d : SimData) :
    ∀ (l : List (Nat × Snapshot)) (fig : Figure) (acc : List Png),
    fig.width = 640 → fig.height = 480 →
    (∀ p ∈ acc, p.width = 640 ∧ p.height = 480) →
    ∀ p ∈ (l.foldl (seqStep d) (fig, acc)).2, p.width = 640 ∧ p.height = 480 := by
  intro l
  induction l with
  | nil => intro fig acc _ _ hacc; exact hacc
  | cons ip rest ih =>
    intro fig acc hw hh hacc
    obtain ⟨i, ps⟩ := ip
    rw [List.foldl_cons]
    refine ih _ _ hw hh ?_
    intro p hp
    rcases List.mem_append.mp hp with h1 | h1
    · exact hacc p h1
    · rw [List.mem_singleton.mp h1]
      exact ⟨hw, hh⟩

theorem seqFrames_dims (d : SimData) :
    ∀ p ∈ seqFrames d, p.width = 640 ∧ p.height = 480 := by
  intro p hp
  exact seqFold_dims d d.trajectory.enum (seqInitFig d) [] rfl rfl
    (by intro q hq; cases hq) p hp

theorem pairwise_dims_of_const :
    ∀ (l : List Png), (∀ p ∈ l, p.width = 640 ∧ p.height = 480) →
    l.Pairwise (fun p q => p.width = q.width ∧ p.height = q.height) := by
  intro l
  induction l with
  | nil => intro _; exact List.Pairwise.nil
  | cons p rest ih =>
    intro h
    refine List.Pairwise.cons ?_ (ih fun q hq => h q (List.mem_cons_of_mem p hq))
    intro q hq
    obtain ⟨hw, hh⟩ := h p (List.mem_cons_self p rest)
    obtain ⟨hw', hh'⟩ := h q (List.mem_cons_of_mem p hq)
    constructor
    · rw [hw, hw']
    · rw [hh, hh']

/-! ## Claims -/

/-- C1 (counterexample): the claim "for every trajectory and every completion
order the assembled video's frame sequence equals the snapshot index order"
fails on the code.  First input: a uniform trajectory of 10001 snapshots (with
identity completion order) — the assembler sorts the scratch files by path,
and `temp/frame_10000.png` sorts lexicographically before
`temp/frame_1001.png`, so the video order cannot equal the index order.
Second input: the empty trajectory, where no video is produced at all. -/
theorem C1_counterexample :
    (runParallel ⟨10, 1, 1, 10001, 1, List.replicate 10001 [((0 : Int), 0, 0)]⟩
        ⟨fun _ => false⟩ emptyFS (List.range 10001)).video
      ≠ some ((List.range 10001).map pathOf)
    ∧ (runParallel ⟨10, 1, 1, 0, 1, ([] : List Snapshot)⟩ ⟨fun _ => false⟩
        emptyFS []).video = none := by
  constructor
  · intro h
    have hs := runParallel_video_sorted _ _ _ _ _ h
    have h99 : (9999 : Nat) < ((List.range 10001).map pathOf).length := by simp
    have h100 : (10000 : Nat) < ((List.range 10001).map pathOf).length := by simp
    have hrel := List.pairwise_iff_get.mp hs ⟨9999, h99⟩ ⟨10000, h100⟩
      (Fin.mk_lt_mk.mpr (by omega))
    simp only [List.get_map, List.get_range] at hrel
    rw [LeStr_iff] at hrel
    have hlt : lexLt (pathOf 10000) (pathOf 9999) = true := by decide
    rw [hlt] at hrel
    cases hrel
  · decide

/-- C1 (amended): for every uniformly-shaped trajectory with between 1 and
10000 snapshots, starting from a clean filesystem, for every worker completion
order and with no rendering failure, the assembled video's frame sequence
equals the trajectory's snapshot index order (the frame of snapshot `i` is at
position `i`) and the run completes without error.  The bound is forced by the
counterexample: the assembler orders frames by a lexicographic sort of the
scratch-directory paths, which agrees with the numeric index order exactly for
the zero-padded four-digit names, and an empty trajectory yields no video. -/
theorem C1_order_amended (d : SimData) (env : Env) (ord : List Nat)
    (hu : uniform d.trajectory = true)
    (hfail : ∀ p, env.savefigFails p = false)
    (hord : ord.Perm (List.range d.trajectory.length))
    (hn : 1 ≤ d.trajectory.length) (hmax : d.trajectory.length ≤ 10000) :
    (runParallel d env emptyFS ord).video
      = some ((List.range d.trajectory.length).map pathOf)
    ∧ (runParallel d env emptyFS ord).err = none := by
  have hmk : os_makedirs emptyFS (globalsOf d).temp_dir = ⟨["temp".data], []⟩ := rfl
  obtain ⟨figs', hW, _⟩ := workerFold_clean d env hfail ord [newFigure] ["temp".data] []
    (by
      intro f hf
      rw [List.mem_singleton.mp hf]
      exact ⟨rfl, rfl⟩)
    (fun k hk => List.mem_range.mp (hord.subset hk))
    (hord.symm.nodup (List.nodup_range _))
    (fun k _ hk => (List.not_mem_nil k) hk)
  simp only [List.map_nil, List.nil_append] at hW
  rw [runParallel]
  split
  · next e heq =>
    rw [np_array_ok hu] at heq
    cases heq
  · next traj heq =>
    rw [np_array_ok hu] at heq
    cases heq
    rw [hmk]
    split
    · next st e heq2 =>
      rw [hW] at heq2
      cases heq2
    · next st heq2 =>
      rw [hW] at heq2
      cases heq2
      have hdd : (globalsOf d).temp_dir = "temp".data := rfl
      rw [hdd]
      split
      · next e heq3 =>
        rw [clip_dir_clean d ord _ hord hn hmax] at heq3
        cases heq3
      · next video heq3 =>
        rw [clip_dir_clean d ord _ hord hn hmax] at heq3
        cases heq3
        split
        · next e heq4 =>
          rw [cleanup_spec _ (List.mem_singleton.mpr rfl)] at heq4
          cases heq4
        · next fs3 heq4 =>
          exact ⟨rfl, rfl⟩

/-- C1 (witness): a two-snapshot run with reversed completion order yields the
video in snapshot order with no error. -/
theorem C1_order_amended_witness :
    (runParallel ⟨10, 2, 1, 20, 10,
        [[((1 : Int), 1, 1), (2, 2, 2)], [(3, 3, 3), (4, 4, 4)]]⟩ ⟨fun _ => false⟩
        emptyFS [1, 0]).video = some ((List.range 2).map pathOf)
    ∧ (runParallel ⟨10, 2, 1, 20, 10,
        [[((1 : Int), 1, 1), (2, 2, 2)], [(3, 3, 3), (4, 4, 4)]]⟩ ⟨fun _ => false⟩
        emptyFS [1, 0]).err = none :=
  C1_order_amended _ _ _ (by decide) (fun _ => rfl) (by decide) (by decide) (by decide)

/-- C2 (counterexample): a trajectory whose single snapshot holds one position
triple while `num_atoms = 2` does not abort with a ShapeMismatchError before
rendering — the run completes without any error, renders the snapshot and
produces a video. -/
theorem C2_counterexample :
    (runParallel ⟨10, 2, 1, 20, 10, [[((1 : Int), 1, 1)]]⟩ ⟨fun _ => false⟩
        emptyFS [0]).err = none
    ∧ (runParallel ⟨10, 2, 1, 20, 10, [[((1 : Int), 1, 1)]]⟩ ⟨fun _ => false⟩
        emptyFS [0]).video = some [pathOf 0]
    ∧ (runParallel ⟨10, 2, 1, 20, 10, [[((1 : Int), 1, 1)]]⟩ ⟨fun _ => false⟩
        emptyFS [0]).framePaths = some [pathOf 0] := by
  refine ⟨?_, ?_, ?_⟩ <;> decide

/-- C2 (amended): the run performs no shape validation at all.  `num_atoms`
is read but never consulted, so the whole run is unchanged under any
`num_atoms` value; the only load-time abort is numpy's ValueError on a ragged
trajectory (never a ShapeMismatchError), and a uniformly wrong-sized
trajectory proceeds through rendering and assembly. -/
theorem C2_no_shape_validation (d : SimData) (m : Nat) (env : Env) (fs0 : FS)
    (ord : List Nat) :
    runParallel { d with num_atoms := m } env fs0 ord = runParallel d env fs0 ord
    ∧ (uniform d.trajectory = false →
        (runParallel d env fs0 ord).err = some .valueError
        ∧ (runParallel d env fs0 ord).video = none
        ∧ (runParallel d env fs0 ord).framePaths = none) := by
  constructor
  · rfl
  · intro h
    have hout : runParallel d env fs0 ord = ⟨fs0, none, none, some .valueError⟩ := by
      rw [runParallel]
      split
      · next e heq =>
        rw [np_array_err h] at heq
        cases heq
        rfl
      · next traj heq =>
        rw [np_array_err h] at heq
        cases heq
    rw [hout]
    exact ⟨rfl, rfl, rfl⟩

/-- C2 (witness): changing `num_atoms` from 2 to 5 leaves the run unchanged,
and a ragged trajectory aborts with a ValueError. -/
theorem C2_witness :
    runParallel ⟨10, 5, 1, 20, 10, [[((1 : Int), 1, 1)]]⟩ ⟨fun _ => false⟩ emptyFS [0]
      = runParallel ⟨10, 2, 1, 20, 10, [[((1 : Int), 1, 1)]]⟩ ⟨fun _ => false⟩ emptyFS [0]
    ∧ (runParallel ⟨10, 2, 1, 20, 10,
          [[((1 : Int), 1, 1), (2, 2, 2)], [(3, 3, 3)]]⟩ ⟨fun _ => false⟩
          emptyFS [0]).err = some .valueError := by
  constructor
  · exact (C2_no_shape_validation ⟨10, 2, 1, 20, 10, [[((1 : Int), 1, 1)]]⟩ 5
      ⟨fun _ => false⟩ emptyFS [0]).1
  · exact ((C2_no_shape_validation ⟨10, 2, 1, 20, 10,
      [[((1 : Int), 1, 1), (2, 2, 2)], [(3, 3, 3)]]⟩ 0
      ⟨fun _ => false⟩ emptyFS [0]).2 (by decide)).1

/-- C3 (counterexample): it is not the case that distinct renderer invocations
use distinct rendering contexts — every `process_frame` invocation
dereferences the same module-level figure/axes (store index 0, lines 16 and
51-52), so the claimed per-invocation private context does not exist. -/
theorem C3_counterexample :
    ¬ ∀ (a b : Nat × Snapshot), a ≠ b →
        process_frame_ctx (globalsOf ⟨10, 2, 1, 20, 10, [[((1 : Int), 1, 1)]]⟩) a
          ≠ process_frame_ctx (globalsOf ⟨10, 2, 1, 20, 10, [[((1 : Int), 1, 1)]]⟩) b := by
  intro h
  exact h (0, []) (1, []) (by decide) rfl

/-- C3 (amended): all renderer invocations share the single module-level
figure created at import (one per worker process under fork): every
invocation dereferences the same store index 0, and no invocation ever
creates a new figure — the store length never grows during a run.  Each
invocation clears and redraws the shared axes rather than owning a private
context. -/
theorem C3_shared_context (d : SimData) (env : Env) (figs : List Figure) (fs : FS)
    (ord : List Nat) (args : List (Nat × Snapshot)) (a b : Nat × Snapshot) :
    process_frame_ctx (globalsOf d) a = process_frame_ctx (globalsOf d) b
    ∧ process_frame_ctx (globalsOf d) a = 0
    ∧ ((workerFold (globalsOf d) env (figs, fs) ord args).1.1).length = figs.length :=
  ⟨rfl, rfl, workerFold_store_len _ _ _ _ _⟩

/-- C4 (counterexample): cleanup is neither idempotent nor tolerant of a
missing scratch directory: on a filesystem without `temp` it fails with
FileNotFound (os.listdir raises, line 70), and running it twice from a state
where the first run succeeds makes the second run fail the same way. -/
theorem C4_counterexample :
    cleanup emptyFS = .error .fileNotFound
    ∧ (cleanup (⟨["temp".data],
        [(("temp".data, "a.png".data), ⟨640, 480, Axes.cleared⟩)]⟩ : FS)).bind cleanup
      = .error .fileNotFound
    ∧ (cleanup (⟨["temp".data],
        [(("temp".data, "a.png".data), ⟨640, 480, Axes.cleared⟩)]⟩ : FS)).isOk = true := by
  refine ⟨?_, ?_, ?_⟩ <;> decide

/-- C4 (amended): cleanup tolerates missing artifact files — whenever the
scratch directory exists it succeeds, deleting exactly the files currently
under the directory and then the directory itself, whatever subset of the
run's artifacts is still present; but it is not idempotent and does not skip
a missing scratch directory: in that case (e.g. on a second run) it fails
with FileNotFound. -/
theorem C4_cleanup_tolerance (fs : FS) :
    ("temp".data ∈ fs.dirs → cleanup fs = .ok ⟨fs.dirs.erase "temp".data,
        fs.files.filter (fun e => decide (¬ e.1.1 = "temp".data))⟩)
    ∧ ("temp".data ∉ fs.dirs → cleanup fs = .error .fileNotFound) :=
  ⟨cleanup_spec fs, cleanup_missing fs⟩

/-- C4 (witness): cleanup of a scratch directory holding one file succeeds
and empties it; cleanup without the scratch directory fails. -/
theorem C4_cleanup_tolerance_witness :
    cleanup (⟨["temp".data],
        [(("temp".data, "a.png".data), ⟨640, 480, Axes.cleared⟩)]⟩ : FS)
      = .ok ⟨(["temp".data] : List (List Char)).erase "temp".data,
          ([(("temp".data, "a.png".data), ⟨640, 480, Axes.cleared⟩)] : List Entry).filter
            (fun e => decide (¬ e.1.1 = "temp".data))⟩
    ∧ cleanup emptyFS = .error .fileNotFound :=
  ⟨(C4_cleanup_tolerance ⟨["temp".data],
      [(("temp".data, "a.png".data), ⟨640, 480, Axes.cleared⟩)]⟩).1 (by decide),
   (C4_cleanup_tolerance emptyFS).2 (by decide)⟩

/-- C5: for every valid input (uniform trajectory, no rendering failure), the
rendering stage produces exactly one frame artifact per snapshot: the
collected `frame_paths` list is `[pathOf 0, ..., pathOf (n-1)]` for the `n`
snapshots, its length is `n`, and the index-to-artifact map is injective. -/
theorem C5_artifact_count (d : SimData) (env : Env) (fs0 : FS) (ord : List Nat)
    (hu : uniform d.trajectory = true) (hfail : ∀ p, env.savefigFails p = false) :
    (runParallel d env fs0 ord).framePaths
      = some ((List.range d.trajectory.length).map pathOf)
    ∧ ((List.range d.trajectory.length).map pathOf).length = d.trajectory.length
    ∧ (∀ i j : Nat, pathOf i = pathOf j → i = j) := by
  refine ⟨?_, by simp, fun i j => pathOf_inj i j⟩
  have hcp : collectPaths (globalsOf d) (argsOf d.trajectory)
      = (List.range d.trajectory.length).map pathOf := by
    rw [collectPaths, argsOf, List.map_map]
    rfl
  rw [runParallel]
  split
  · next e heq =>
    rw [np_array_ok hu] at heq
    cases heq
  · next traj heq =>
    rw [np_array_ok hu] at heq
    cases heq
    split
    · next st e heq2 =>
      have hok := workerFold_ok_of_nofail (globalsOf d) env hfail ord
        ([newFigure], os_makedirs fs0 (globalsOf d).temp_dir) (argsOf d.trajectory)
      rw [heq2] at hok
      cases hok
    · next st heq2 =>
      split
      · next e heq3 => rw [hcp]
      · next video heq3 =>
        split
        · next e heq4 => rw [hcp]
        · next fs3 heq4 => rw [hcp]

/-- C5 (witness): a two-snapshot run collects exactly the two frame paths in
index order. -/
theorem C5_artifact_count_witness :
    (runParallel ⟨10, 2, 1, 20, 10,
        [[((1 : Int), 1, 1), (2, 2, 2)], [(3, 3, 3), (4, 4, 4)]]⟩ ⟨fun _ => false⟩
        emptyFS [1, 0]).framePaths = some ((List.range 2).map pathOf)
    ∧ ((List.range 2).map pathOf).length = 2
    ∧ (∀ i j : Nat, pathOf i = pathOf j → i = j) :=
  C5_artifact_count ⟨10, 2, 1, 20, 10,
    [[((1 : Int), 1, 1), (2, 2, 2)], [(3, 3, 3), (4, 4, 4)]]⟩ ⟨fun _ => false⟩
    emptyFS [1, 0] (by decide) (fun _ => rfl)

/-- C6: if any single frame-rendering invocation fails, the failure is
surfaced: the run ends with an error, no video is produced and no
frame-paths list is returned (the pipeline aborts instead of skipping the
frame). -/
theorem C6_render_failure_aborts (d : SimData) (env : Env) (fs0 : FS) (ord : List Nat)
    (hord : ord.Perm (List.range d.trajectory.length))
    (hfail : ∃ k, k < d.trajectory.length ∧ env.savefigFails (pathOf k) = true) :
    (runParallel d env fs0 ord).video = none
    ∧ (runParallel d env fs0 ord).framePaths = none
    ∧ (runParallel d env fs0 ord).err ≠ none := by
  rw [runParallel]
  split
  · next e heq => exact ⟨rfl, rfl, by simp⟩
  · next traj heq =>
    have ht := np_array_ok_eq heq
    subst ht
    split
    · next st e heq2 => exact ⟨rfl, rfl, by simp⟩
    · next st heq2 =>
      exfalso
      obtain ⟨k, hklen, hkf⟩ := hfail
      have hne := workerFold_fails d env ord
        ([newFigure], os_makedirs fs0 (globalsOf d).temp_dir)
        ⟨k, hord.mem_iff.mpr (List.mem_range.mpr hklen), hklen, hkf⟩
      rw [heq2] at hne
      exact hne rfl

/-- C6 (witness): with a rendering failure injected for frame 0 of a
two-snapshot trajectory, no video and no path list are produced and the run
errors. -/
theorem C6_render_failure_aborts_witness :
    (runParallel ⟨10, 2, 1, 20, 10,
        [[((1 : Int), 1, 1), (2, 2, 2)], [(3, 3, 3), (4, 4, 4)]]⟩
        ⟨fun p => decide (p = pathOf 0)⟩ emptyFS [1, 0]).video = none
    ∧ (runParallel ⟨10, 2, 1, 20, 10,
        [[((1 : Int), 1, 1), (2, 2, 2)], [(3, 3, 3), (4, 4, 4)]]⟩
        ⟨fun p => decide (p = pathOf 0)⟩ emptyFS [1, 0]).framePaths = none
    ∧ (runParallel ⟨10, 2, 1, 20, 10,
        [[((1 : Int), 1, 1), (2, 2, 2)], [(3, 3, 3), (4, 4, 4)]]⟩
        ⟨fun p => decide (p = pathOf 0)⟩ emptyFS [1, 0]).err ≠ none :=
  C6_render_failure_aborts ⟨10, 2, 1, 20, 10,
    [[((1 : Int), 1, 1), (2, 2, 2)], [(3, 3, 3), (4, 4, 4)]]⟩
    ⟨fun p => decide (p = pathOf 0)⟩ emptyFS [1, 0] (by decide) ⟨0, by decide, by decide⟩

/-- C7: if video assembly fails with an EncodingError, the intermediate frame
files are retained for inspection: no video is produced, cleanup does not run
— the scratch directory still exists in the final state and every frame
rendered for the trajectory is still present in it. -/
theorem C7_encoding_failure_retains_scratch (d : SimData) (env : Env) (fs0 : FS)
    (ord : List Nat) (hord : ord.Perm (List.range d.trajectory.length))
    (henc : (runParallel d env fs0 ord).err = some .encodingError) :
    (runParallel d env fs0 ord).video = none
    ∧ "temp".data ∈ (runParallel d env fs0 ord).fs.dirs
    ∧ ∀ k, k < d.trajectory.length →
        ∃ p, (("temp".data, frame_name k), p) ∈ (runParallel d env fs0 ord).fs.files := by
  rw [runParallel] at henc ⊢
  split at henc
  · next e heq =>
    exfalso
    have he := np_array_err_only heq
    subst he
    simp at henc
  · next traj heq =>
    have ht := np_array_ok_eq heq
    subst ht
    split at henc
    · next st e heq2 =>
      exfalso
      have he := workerFold_err (globalsOf d) env ord _ _ e (by rw [heq2])
      subst he
      simp at henc
    · next st heq2 =>
      obtain ⟨figs', fs'⟩ := st
      split at henc
      · next e heq3 =>
        refine ⟨rfl, ?_, ?_⟩
        · have hd := workerFold_dirs (globalsOf d) env ord
            ([newFigure], os_makedirs fs0 (globalsOf d).temp_dir)
            (argsOf d.trajectory)
          rw [heq2] at hd
          have hm : (globalsOf d).temp_dir
              ∈ (os_makedirs fs0 (globalsOf d).temp_dir).dirs :=
            os_makedirs_mem fs0 (globalsOf d).temp_dir
          rw [← hd] at hm
          exact hm
        · intro k hk
          exact workerFold_writes d env ord _ figs' fs'
            (hord.symm.nodup (List.nodup_range _)) heq2 k
            (hord.mem_iff.mpr (List.mem_range.mpr hk)) hk
      · next video heq3 =>
        exfalso
        split at henc
        · next e' heq4 => simp at henc
        · next fs3 heq4 => simp at henc

/-- C7 (witness): with a stale, differently-sized image left in the scratch
directory, assembly fails with an EncodingError and the rendered frame of the
one-snapshot trajectory is retained in the still-existing scratch
directory. -/
theorem C7_encoding_failure_retains_scratch_witness :
    (runParallel ⟨10, 2, 1, 20, 10, [[((1 : Int), 1, 1)]]⟩ ⟨fun _ => false⟩
        ⟨["temp".data], [(("temp".data, "stale.png".data), ⟨9, 9, Axes.cleared⟩)]⟩
        [0]).video = none
    ∧ "temp".data ∈ (runParallel ⟨10, 2, 1, 20, 10, [[((1 : Int), 1, 1)]]⟩
        ⟨fun _ => false⟩
        ⟨["temp".data], [(("temp".data, "stale.png".data), ⟨9, 9, Axes.cleared⟩)]⟩
        [0]).fs.dirs
    ∧ ∀ k, k < (⟨10, 2, 1, 20, 10, [[((1 : Int), 1, 1)]]⟩ : SimData).trajectory.length →
        ∃ p, (("temp".data, frame_name k), p)
          ∈ (runParallel ⟨10, 2, 1, 20, 10, [[((1 : Int), 1, 1)]]⟩ ⟨fun _ => false⟩
              ⟨["temp".data], [(("temp".data, "stale.png".data), ⟨9, 9, Axes.cleared⟩)]⟩
              [0]).fs.files :=
  C7_encoding_failure_retains_scratch ⟨10, 2, 1, 20, 10, [[((1 : Int), 1, 1)]]⟩
    ⟨fun _ => false⟩
    ⟨["temp".data], [(("temp".data, "stale.png".data), ⟨9, 9, Axes.cleared⟩)]⟩
    [0] (by decide) (by decide)

/-- C8: the rendered frame's title is `Timestep (i * SNAPSHOT_INTERVAL)` in
both variants: the parallel renderer sets exactly this title on the frame for
snapshot index `i` (line 22), and the sequential variant's frame list carries
the same titles in index order (line 121/44 of the sequential script). -/
theorem C8_frame_titles (g : Globals) (fig : Figure) (i : Nat) (ps : Snapshot)
    (d : SimData) :
    (rasterize (renderFig g fig i ps)).content.title
      = "Timestep ".data ++ decChars (i * g.SNAPSHOT_INTERVAL)
    ∧ (seqFrames d).map (fun p => p.content.title)
      = (List.range d.trajectory.length).map
          (fun j => "Timestep ".data ++ decChars (j * d.snapshot_interval)) :=
  ⟨rfl, seqFrames_titles d⟩

/-- C9: cleanup deletes every file present in the scratch directory at
cleanup time — including files not created by this run — and spares files
outside the scratch directory: when the directory exists, cleanup succeeds
and the resulting filesystem holds none of the files that were under the
scratch directory, whatever their names, and all of the others. -/
theorem C9_cleanup_deletes_untracked (fs : FS) (h : "temp".data ∈ fs.dirs) :
    ∃ fs', cleanup fs = .ok fs'
      ∧ (∀ e ∈ fs.files, e.1.1 = "temp".data → e ∉ fs'.files)
      ∧ (∀ e ∈ fs.files, ¬ e.1.1 = "temp".data → e ∈ fs'.files) := by
  refine ⟨_, cleanup_spec fs h, ?_, ?_⟩
  · intro e _ het hmem
    have hf := (List.mem_filter.mp hmem).2
    simp only [decide_eq_true_eq] at hf
    exact hf het
  · intro e he hne
    exact List.mem_filter.mpr ⟨he, by simpa using hne⟩

/-- C9 (witness): a scratch directory holding one tracked frame and one
foreign file is emptied of both, while a file outside the directory
survives. -/
theorem C9_cleanup_deletes_untracked_witness :
    ∃ fs', cleanup (⟨["temp".data, "keep".data],
        [(("temp".data, "frame_0000.png".data), ⟨640, 480, Axes.cleared⟩),
         (("temp".data, "leftover.png".data), ⟨9, 9, Axes.cleared⟩),
         (("keep".data, "other.png".data), ⟨1, 1, Axes.cleared⟩)]⟩ : FS) = .ok fs'
      ∧ (∀ e ∈ (⟨["temp".data, "keep".data],
          [(("temp".data, "frame_0000.png".data), ⟨640, 480, Axes.cleared⟩),
           (("temp".data, "leftover.png".data), ⟨9, 9, Axes.cleared⟩),
           (("keep".data, "other.png".data), ⟨1, 1, Axes.cleared⟩)]⟩ : FS).files,
          e.1.1 = "temp".data → e ∉ fs'.files)
      ∧ (∀ e ∈ (⟨["temp".data, "keep".data],
          [(("temp".data, "frame_0000.png".data), ⟨640, 480, Axes.cleared⟩),
           (("temp".data, "leftover.png".data), ⟨9, 9, Axes.cleared⟩),
           (("keep".data, "other.png".data), ⟨1, 1, Axes.cleared⟩)]⟩ : FS).files,
          ¬ e.1.1 = "temp".data → e ∈ fs'.files) :=
  C9_cleanup_deletes_untracked ⟨["temp".data, "keep".data],
    [(("temp".data, "frame_0000.png".data), ⟨640, 480, Axes.cleared⟩),
     (("temp".data, "leftover.png".data), ⟨9, 9, Axes.cleared⟩),
     (("keep".data, "other.png".data), ⟨1, 1, Axes.cleared⟩)]⟩ (by decide)

/-- C10: in the sequential in-memory variant every captured frame buffer has
the same canvas dimensions (one shared figure canvas), pairwise, and so
buffer-list assembly can never fail with a dimension-mismatch
EncodingError. -/
theorem C10_seq_uniform_dims (d : SimData) :
    (seqFrames d).Pairwise (fun p q => p.width = q.width ∧ p.height = q.height)
    ∧ assembleBuffers (seqFrames d) ≠ .error .encodingError := by
  have hall := seqFrames_dims d
  constructor
  · exact pairwise_dims_of_const _ hall
  · rw [assembleBuffers.eq_def]
    split
    · simp
    · rw [if_pos (allSameDims_of_const hall)]
      simp

end Sim
